import Mathlib

/-!
Verification of the async_toolkit concurrency library against its
specification.  The C++ sources are shallowly embedded as Lean functions:
pure state transformations model each operation's single-threaded
execution (the lock-free CAS loops reduce deterministically when there is
no interleaving), machine integers become `Nat`/`Int`, steady-clock time
points become `Nat`, fallible results become `Bool`/`Option`, and
pointers into node chains become lists with the sentinel node left
implicit.
-/

namespace AsyncToolkit

/-! ### MPMCQueue (src/include/async_toolkit/lockfree/mpmc_queue.hpp)

State is `capacity_`, the atomic `size_` counter, and the Michael–Scott
node chain.  `chain` lists the values carried by the successors of the
sentinel node, head side first; `head_` points at the sentinel and
`tail_` at the last node, so both are determined by `chain` in a
single-threaded execution and are not stored separately. -/

structure MPMCQueueM (T : Type) where
  capacity : Nat
  size : Nat
  chain : List T
  deriving DecidableEq, Repr

namespace MPMCQueueM

/-- `try_enqueue` (mpmc_queue.hpp lines 34-63): if `size_ >= capacity_`
return `false` before touching anything; otherwise allocate a node
holding the value, run the CAS loop — which, single-threaded, links the
node after the current tail and advances `tail_` — and bump `size_`. -/
def try_enqueue (q : MPMCQueueM T) (value : T) : Bool × MPMCQueueM T :=
  if q.capacity ≤ q.size then (false, q)
  else (true, { q with chain := q.chain ++ [value], size := q.size + 1 })

/-- `try_dequeue` (mpmc_queue.hpp lines 65-95): if `size_ == 0` return
`false`; if the sentinel's `next` is null (empty chain) return `false`;
otherwise read the sentinel's successor's `data`, swing `head_` to that
successor, return the old sentinel to the pool and decrement `size_`. -/
def try_dequeue (q : MPMCQueueM T) : Option T × MPMCQueueM T :=
  if q.size = 0 then (none, q)
  else
    match q.chain with
    | [] => (none, q)
    | v :: rest => (some v, { q with chain := rest, size := q.size - 1 })

end MPMCQueueM

/-! ### MPMCChannel (src/include/async_toolkit/lockfree/mpmc_channel.hpp)

The channel's node carries an extra `committed` flag next to the data.
`ChanNode.mkValue` is the `Node(const T& value)` constructor
(mpmc_channel.hpp line 25), which initializes `committed(true)`. -/

structure ChanNode (T : Type) where
  data : T
  committed : Bool
  deriving DecidableEq, Repr

/-- `Node(const T&)` constructor: `next(nullptr), data(value),
committed(true)` — the flag is already `true` when the node is created,
before any link CAS has run. -/
def ChanNode.mkValue (value : T) : ChanNode T :=
  { data := value, committed := true }

/-- Channel state, like the queue with committed flags on the nodes. -/
structure MPMCChannelM (T : Type) where
  capacity : Nat
  size : Nat
  chain : List (ChanNode T)
  deriving DecidableEq, Repr

namespace MPMCChannelM

/-- `try_send_impl` (mpmc_channel.hpp lines 89-114): fail if
`size_ >= capacity_`, else allocate the node with `pool_.allocate(value)`
— invoking `Node(const T&)`, so `committed` is already `true` — and run
the link CAS loop, then bump `size_`. -/
def try_send_impl (q : MPMCChannelM T) (value : T) : Bool × MPMCChannelM T :=
  if q.capacity ≤ q.size then (false, q)
  else (true, { q with chain := q.chain ++ [ChanNode.mkValue value], size := q.size + 1 })

/-- `try_receive_impl` (mpmc_channel.hpp lines 116-136): if the
sentinel's `next` is null return `nullopt`; otherwise move
`next->data` out, swing `head_`, deallocate the old sentinel and
decrement `size_`.  The `committed` field of the node is never loaded. -/
def try_receive_impl (q : MPMCChannelM T) : Option T × MPMCChannelM T :=
  match q.chain with
  | [] => (none, q)
  | n :: rest => (some n.data, { q with chain := rest, size := q.size - 1 })

end MPMCChannelM

/-! ### Timeout retry loops (mpmc_channel.hpp lines 43-74)

`try_send` and `try_receive` wrap their `_impl` in the same
do/while loop:

    auto end_time = steady_clock::now() + timeout;
    do {
      if (try_send_impl(...)) return true;        // resp. try_receive_impl
      if (timeout.count() > 0) std::this_thread::yield();
    } while (timeout.count() > 0 && steady_clock::now() < end_time);
    return false;

The environment is abstracted by `attempt i`, the outcome of the i-th
`_impl` call (other threads may change the channel between attempts),
and `clock i`, the `steady_clock::now()` value read by the i-th loop
condition.  `fuel` bounds the recursion; `retryLoop` returns `none`
when the fuel runs out before the loop finishes, and otherwise the
outcome together with the number of attempts made and the number of
`yield` calls performed. -/

def retryLoop (attempt : Nat → Option α) (clock : Nat → Nat) (timeout endTime : Nat) :
    Nat → Nat → Nat → Option (Option α × Nat × Nat)
  | 0, _, _ => none
  | fuel + 1, i, yields =>
    match attempt i with
    | some a => some (some a, i + 1, yields)
    | none =>
      let yields2 := if 0 < timeout then yields + 1 else yields
      if 0 < timeout ∧ clock i < endTime then
        retryLoop attempt clock timeout endTime fuel (i + 1) yields2
      else some (none, i + 1, yields2)

/-- `MPMCChannel::try_send` (lines 43-58): retry `try_send_impl` until
it succeeds or the deadline `now + timeout` passes; a send attempt
either succeeds (`some ()`) or fails (`none`). -/
def try_send (impl : Nat → Bool) (clock : Nat → Nat) (now timeout fuel : Nat) :
    Option (Option Unit × Nat × Nat) :=
  retryLoop (fun i => if impl i then some () else none) clock timeout (now + timeout) fuel 0 0

/-- `MPMCChannel::try_receive` (lines 60-74): retry `try_receive_impl`
until it yields a value or the deadline `now + timeout` passes. -/
def try_receive (impl : Nat → Option α) (clock : Nat → Nat) (now timeout fuel : Nat) :
    Option (Option α × Nat × Nat) :=
  retryLoop impl clock timeout (now + timeout) fuel 0 0

/-! ### PriorityScheduler (src/include/async_toolkit/scheduler/priority_scheduler.hpp)

`Task` carries an opaque callable, an `int` priority, a steady-clock
`schedule_time` and a `task_id`; the callable is left out of the
embedding and a task is identified by its `task_id`.  `tasks_` is a
`std::priority_queue<Task>` whose `top` is a maximal element for
`Task::operator<`; it is modelled as a list kept in pop order (head =
top), which the pairwise-ordering lemmas below justify. -/

structure SchedTask where
  priority : Int
  schedule_time : Nat
  task_id : Nat
  deriving DecidableEq, Repr

/-- `Task::operator<` (priority_scheduler.hpp lines 22-26): compare by
`priority` when they differ, otherwise by `schedule_time` reversed. -/
def SchedTask.lt (a b : SchedTask) : Bool :=
  if a.priority ≠ b.priority then decide (a.priority < b.priority)
  else decide (a.schedule_time > b.schedule_time)

/-- Insertion into the priority-queue model: the new task goes in front
of the first strictly smaller element, so the list stays in pop order
and ties keep their insertion order. -/
def pqInsertBy (lt : α → α → Bool) (t : α) : List α → List α
  | [] => [t]
  | e :: rest => if lt e t then t :: e :: rest else e :: pqInsertBy lt t rest

/-- Scheduler state: the heap (in pop order), the stop flag, the
monotone task-id counter, and a log of the tasks whose callables the
workers have invoked, in invocation order. -/
structure SchedState where
  tasks : List SchedTask
  stop : Bool
  next_task_id : Nat
  runLog : List SchedTask
  deriving DecidableEq, Repr

namespace SchedState

/-- `schedule_at` (priority_scheduler.hpp lines 65-82): build the task
with the next id, push it, return the id. -/
def schedule_at (s : SchedState) (time : Nat) (priority : Int) : Nat × SchedState :=
  (s.next_task_id,
    { s with
      tasks := pqInsertBy SchedTask.lt ⟨priority, time, s.next_task_id⟩ s.tasks,
      next_task_id := s.next_task_id + 1 })

/-- `schedule` (lines 49-54): `schedule_at` with `schedule_time = now`. -/
def schedule (s : SchedState) (now : Nat) (priority : Int) : Nat × SchedState :=
  schedule_at s now priority

/-- `schedule_after` (lines 56-63): `schedule_at` with `now + delay`. -/
def schedule_after (s : SchedState) (now delay : Nat) (priority : Int) : Nat × SchedState :=
  schedule_at s (now + delay) priority

/-- `cancel` (lines 84-105): pop every task, keep those whose id does
not match in `temp` (in pop order), remember whether a match was seen,
then push everything in `temp` back. -/
def cancel (s : SchedState) (task_id : Nat) : Bool × SchedState :=
  let temp := s.tasks.filter (fun t => t.task_id != task_id)
  let found := s.tasks.any (fun t => t.task_id == task_id)
  (found, { s with tasks := temp.foldl (fun acc t => pqInsertBy SchedTask.lt t acc) [] })

end SchedState

/-- What one pass of `worker_loop` (priority_scheduler.hpp lines
113-139) does after the condition-variable wait returns. -/
inductive WorkerAct where
  | exit
  | run (task_id : Nat)
  | wait
  deriving DecidableEq, Repr

namespace SchedState

/-- One iteration of `worker_loop`: return (exit the thread) only when
the stop flag is set AND the heap is empty; otherwise, if the top task
is due, pop it and invoke its callable (recorded in `runLog`); else go
back to waiting. -/
def workerStep (s : SchedState) (now : Nat) : WorkerAct × SchedState :=
  if s.stop = true ∧ s.tasks = [] then (WorkerAct.exit, s)
  else
    match s.tasks with
    | [] => (WorkerAct.wait, s)
    | t :: rest =>
      if t.schedule_time ≤ now then
        (WorkerAct.run t.task_id, { s with tasks := rest, runLog := s.runLog ++ [t] })
      else (WorkerAct.wait, s)

/-- The destructor's first action (lines 38-47): set `stop_ = true`
under the lock (the notify and joins have no counterpart in the
sequential state). -/
def set_stop (s : SchedState) : SchedState := { s with stop := true }

end SchedState

/-- Iterate `workerStep`, continuing as long as tasks get executed. -/
def drainFuel : Nat → Nat → SchedState → SchedState
  | 0, _, s => s
  | fuel + 1, now, s =>
    match s.workerStep now with
    | (WorkerAct.run _, s2) => drainFuel fuel now s2
    | (_, s2) => s2

/-! ### ThreadPoolExecutor (src/include/async_toolkit/executor/thread_pool_executor.hpp)

Its private `Task` has a callable (identified here by `fid`), an `int`
priority defaulting to 0 and a `schedule_time` defaulting to now; its
`operator<` (lines 27-31) is the same comparison as the scheduler's.
`tasks_` is again a `std::priority_queue<Task>`. -/

structure ExecTask where
  fid : Nat
  priority : Int
  schedule_time : Nat
  deriving DecidableEq, Repr

/-- `Task::operator<` (thread_pool_executor.hpp lines 27-31). -/
def ExecTask.lt (a b : ExecTask) : Bool :=
  if a.priority ≠ b.priority then decide (a.priority < b.priority)
  else decide (a.schedule_time > b.schedule_time)

structure ExecState where
  tasks : List ExecTask
  max_queue_size : Nat
  deriving DecidableEq, Repr

/-- `max_queue_size` default in the constructor (line 38). -/
def default_max_queue_size : Nat := 10000

namespace ExecState

/-- The guarded push shared by all three submit variants: under the
lock, `if (tasks_.size() >= max_queue_size_) throw ...; tasks_.push(...)`.
The returned flag records whether the QueueFull error was thrown; a
throw propagates out before the push, leaving the queue untouched. -/
def submitCore (s : ExecState) (t : ExecTask) : Bool × ExecState :=
  if s.max_queue_size ≤ s.tasks.length then (true, s)
  else (false, { s with tasks := pqInsertBy ExecTask.lt t s.tasks })

/-- `submit` (lines 56-74): priority 0, schedule_time now. -/
def submit (s : ExecState) (fid now : Nat) : Bool × ExecState :=
  submitCore s ⟨fid, 0, now⟩

/-- `submit_with_priority` (lines 76-94): given priority, time now. -/
def submit_with_priority (s : ExecState) (priority : Int) (fid now : Nat) : Bool × ExecState :=
  submitCore s ⟨fid, priority, now⟩

/-- `schedule_after` (lines 96-115): priority 0, time now + delay. -/
def schedule_after (s : ExecState) (delay fid now : Nat) : Bool × ExecState :=
  submitCore s ⟨fid, 0, now + delay⟩

end ExecState

/-! ### WorkStealingQueue (src/include/async_toolkit/scheduler/work_stealing_scheduler.hpp lines 16-53)

A mutex-protected `std::deque<T>`, modelled as the list of its elements
front first; all three operations are straight transcriptions. -/

namespace WSQ

/-- `push`: `tasks_.push_back(task)`. -/
def push (l : List T) (task : T) : List T := l ++ [task]

/-- `try_pop` (owner side): fail on empty, else move out `tasks_.back()`
and `pop_back`. -/
def try_pop (l : List T) : Option T × List T :=
  match l.getLast? with
  | none => (none, l)
  | some task => (some task, l.dropLast)

/-- `try_steal` (thief side): fail on empty, else move out
`tasks_.front()` and `pop_front`. -/
def try_steal (l : List T) : Option T × List T :=
  match l with
  | [] => (none, l)
  | task :: rest => (some task, rest)

end WSQ

/-! ### MemoryPool (src/include/async_toolkit/memory/memory_pool.hpp)

The pool owns a list of 64 KiB chunks and threads an intrusive free
list through unused blocks.  Blocks are identified by addresses
(`Nat`); `destroyed` logs every `ptr->~T()` call so that "calls no
destructor" is observable in the model. -/

structure MemoryPoolM where
  free_list : List Nat
  chunks : List Nat
  destroyed : List Nat
  deriving DecidableEq, Repr

namespace MemoryPoolM

/-- `Chunk::chunk_size` (memory_pool.hpp line 25). -/
def chunk_size : Nat := 64 * 1024

/-- `allocated_size` (lines 55-57): `chunks_.size() * Chunk::chunk_size`. -/
def allocated_size (p : MemoryPoolM) : Nat := p.chunks.length * chunk_size

/-- `deallocate` (lines 44-53): `if (!ptr) return;` then destruct in
place and push the block onto the free list.  The argument is an
`Option` so the null pointer is representable. -/
def deallocate (p : MemoryPoolM) (ptr : Option Nat) : MemoryPoolM :=
  match ptr with
  | none => p
  | some a => { p with destroyed := p.destroyed ++ [a], free_list := a :: p.free_list }

end MemoryPoolM

/-! ## Helper lemmas -/

/-- `lt` in arithmetic form. -/
theorem SchedTask.lt_iff (a b : SchedTask) :
    SchedTask.lt a b = true ↔
      (a.priority < b.priority ∨ (a.priority = b.priority ∧ b.schedule_time < a.schedule_time)) := by
  unfold SchedTask.lt
  by_cases hab : a.priority = b.priority <;> simp [hab] <;> omega

/-- Negated `lt` in arithmetic form: `a` sorts no later than `b`. -/
theorem SchedTask.nlt_iff (a b : SchedTask) :
    SchedTask.lt a b = false ↔
      (b.priority < a.priority ∨ (a.priority = b.priority ∧ a.schedule_time ≤ b.schedule_time)) := by
  unfold SchedTask.lt
  by_cases hab : a.priority = b.priority <;> simp [hab] <;> omega

theorem SchedTask.lt_asymm (a b : SchedTask) (h : SchedTask.lt a b = true) :
    SchedTask.lt b a = false := by
  rw [SchedTask.lt_iff] at h
  rw [SchedTask.nlt_iff]
  omega

theorem SchedTask.nlt_trans (a b c : SchedTask) (h1 : SchedTask.lt a b = false)
    (h2 : SchedTask.lt b c = false) : SchedTask.lt a c = false := by
  rw [SchedTask.nlt_iff] at h1 h2 ⊢
  omega

theorem SchedTask.lt_of_lt_of_nlt (e t x : SchedTask) (h1 : SchedTask.lt e t = true)
    (h2 : SchedTask.lt e x = false) : SchedTask.lt t x = false := by
  rw [SchedTask.lt_iff] at h1
  rw [SchedTask.nlt_iff] at h2 ⊢
  omega

theorem mem_pqInsertBy (lt : α → α → Bool) (t x : α) (l : List α) :
    x ∈ pqInsertBy lt t l ↔ x = t ∨ x ∈ l := by
  induction l with
  | nil => simp [pqInsertBy]
  | cons e rest ih =>
    unfold pqInsertBy
    by_cases h : lt e t = true <;> simp [h, ih] <;> tauto

/-- Pushing preserves the pop-order invariant of the heap model. -/
theorem pairwise_pqInsert (t : SchedTask) (l : List SchedTask)
    (hl : l.Pairwise (fun a b => SchedTask.lt a b = false)) :
    (pqInsertBy SchedTask.lt t l).Pairwise (fun a b => SchedTask.lt a b = false) := by
  induction l with
  | nil => simp [pqInsertBy]
  | cons e rest ih =>
    rw [List.pairwise_cons] at hl
    obtain ⟨he, hrest⟩ := hl
    unfold pqInsertBy
    by_cases h : SchedTask.lt e t = true
    · simp only [h, if_true]
      rw [List.pairwise_cons]
      refine ⟨?_, List.pairwise_cons.mpr ⟨he, hrest⟩⟩
      intro x hx
      rcases List.mem_cons.mp hx with hx | hx
      · rw [hx]
        exact SchedTask.lt_asymm e t h
      · exact SchedTask.lt_of_lt_of_nlt e t x h (he x hx)
    · have h2 : SchedTask.lt e t = false := by
        cases hlt : SchedTask.lt e t
        · rfl
        · exact absurd hlt h
      simp only [h2, Bool.false_eq_true, if_false]
      rw [List.pairwise_cons]
      refine ⟨?_, ih hrest⟩
      intro x hx
      rcases (mem_pqInsertBy SchedTask.lt t x rest).mp hx with hx | hx
      · rw [hx]
        exact h2
      · exact he x hx

/-- Inserting an element that sorts after everything appends it. -/
theorem pqInsert_of_forall_nlt (t : SchedTask) (l : List SchedTask)
    (h : ∀ e ∈ l, SchedTask.lt e t = false) :
    pqInsertBy SchedTask.lt t l = l ++ [t] := by
  induction l with
  | nil => rfl
  | cons e rest ih =>
    have he : SchedTask.lt e t = false := h e (List.mem_cons_self e rest)
    simp [pqInsertBy, he, ih (fun x hx => h x (List.mem_cons_of_mem e hx))]

/-- Re-pushing a pop-ordered list of tasks rebuilds the same heap:
this is what `cancel` does with its `temp` vector. -/
theorem foldl_pqInsert_sorted (l acc : List SchedTask)
    (h : (acc ++ l).Pairwise (fun a b => SchedTask.lt a b = false)) :
    l.foldl (fun a t => pqInsertBy SchedTask.lt t a) acc = acc ++ l := by
  induction l generalizing acc with
  | nil => simp
  | cons t rest ih =>
    have hat : ∀ e ∈ acc, SchedTask.lt e t = false := fun e hea =>
      (List.pairwise_append.mp h).2.2 e hea t (List.mem_cons_self t rest)
    rw [List.foldl_cons, pqInsert_of_forall_nlt t acc hat]
    have h2 : ((acc ++ [t]) ++ rest).Pairwise (fun a b => SchedTask.lt a b = false) := by
      simpa [List.append_assoc] using h
    rw [ih (acc ++ [t]) h2]
    simp

/-- Unfolding equation for one iteration of the retry loop. -/
theorem retryLoop_succ (attempt : Nat → Option α) (clock : Nat → Nat)
    (timeout endTime fuel i yields : Nat) :
    retryLoop attempt clock timeout endTime (fuel + 1) i yields =
      match attempt i with
      | some a => some (some a, i + 1, yields)
      | none =>
        if 0 < timeout ∧ clock i < endTime then
          retryLoop attempt clock timeout endTime fuel (i + 1)
            (if 0 < timeout then yields + 1 else yields)
        else some (none, i + 1, if 0 < timeout then yields + 1 else yields) := rfl

/-- With a zero timeout the do/while body runs exactly once and the
loop returns immediately, performing no yield. -/
theorem retryLoop_zero_timeout (attempt : Nat → Option α) (clock : Nat → Nat)
    (endTime fuel i yields : Nat) :
    retryLoop attempt clock 0 endTime (fuel + 1) i yields =
      some (attempt i, i + 1, yields) := by
  rw [retryLoop_succ]
  cases h : attempt i <;> simp

/-- When the loop gives up (clean failure), every non-final loop
condition saw a clock value below the deadline, the final one did not
(for positive timeouts), and one yield was performed per failed attempt
(for positive timeouts). -/
theorem retryLoop_fail_bounds (attempt : Nat → Option α) (clock : Nat → Nat)
    (timeout endTime : Nat) :
    ∀ fuel i yields n y,
      retryLoop attempt clock timeout endTime fuel i yields = some (none, n, y) →
      i < n ∧ (∀ j, i ≤ j → j + 1 < n → clock j < endTime) ∧
      (0 < timeout → ¬ clock (n - 1) < endTime) ∧
      (0 < timeout → y = yields + (n - i)) := by
  intro fuel
  induction fuel with
  | zero =>
    intro i yields n y h
    exact absurd h (by simp [retryLoop])
  | succ fuel ih =>
    intro i yields n y h
    rw [retryLoop_succ] at h
    cases ha : attempt i with
    | some a =>
      rw [ha] at h
      simp at h
    | none =>
      rw [ha] at h
      by_cases hc : 0 < timeout ∧ clock i < endTime
      · rw [if_pos hc] at h
        obtain ⟨h1, h2, h3, h4⟩ := ih (i + 1) (if 0 < timeout then yields + 1 else yields) n y h
        refine ⟨by omega, ?_, h3, ?_⟩
        · intro j hij hjn
          rcases Nat.eq_or_lt_of_le hij with he | hlt
          · rw [← he]
            exact hc.2
          · exact h2 j hlt hjn
        · intro ht
          have h5 := h4 ht
          rw [if_pos ht] at h5
          omega
      · rw [if_neg hc] at h
        simp at h
        obtain ⟨hn, hy⟩ := h
        refine ⟨by omega, by intro j h1 h2; omega, ?_, ?_⟩
        · intro ht
          have h6 : ¬ clock i < endTime := fun hx => hc ⟨ht, hx⟩
          have h7 : n - 1 = i := by omega
          rw [h7]
          exact h6
        · intro ht
          rw [if_pos ht] at hy
          omega

/-- When the loop succeeds, every retry before the successful attempt
happened only while the deadline had not passed. -/
theorem retryLoop_success_bounds (attempt : Nat → Option α) (clock : Nat → Nat)
    (timeout endTime : Nat) :
    ∀ fuel i yields a n y,
      retryLoop attempt clock timeout endTime fuel i yields = some (some a, n, y) →
      i < n ∧ (∀ j, i ≤ j → j + 1 < n → clock j < endTime) := by
  intro fuel
  induction fuel with
  | zero =>
    intro i yields a n y h
    exact absurd h (by simp [retryLoop])
  | succ fuel ih =>
    intro i yields a n y h
    rw [retryLoop_succ] at h
    cases ha : attempt i with
    | some b =>
      rw [ha] at h
      simp at h
      obtain ⟨-, hn, -⟩ := h
      exact ⟨by omega, by intro j h1 h2; omega⟩
    | none =>
      rw [ha] at h
      by_cases hc : 0 < timeout ∧ clock i < endTime
      · rw [if_pos hc] at h
        obtain ⟨h1, h2⟩ := ih (i + 1) (if 0 < timeout then yields + 1 else yields) a n y h
        refine ⟨by omega, ?_⟩
        intro j hij hjn
        rcases Nat.eq_or_lt_of_le hij with he | hlt
        · rw [← he]
          exact hc.2
        · exact h2 j hlt hjn
      · rw [if_neg hc] at h
        simp at h

/-- Once the clock has passed the deadline (from index `m` on), the
loop finishes within `m + 1 - i` further iterations: no unbounded
blocking. -/
theorem retryLoop_terminates (attempt : Nat → Option α) (clock : Nat → Nat)
    (timeout endTime m : Nat) (hm : ∀ k, m ≤ k → ¬ clock k < endTime) :
    ∀ fuel i yields, i ≤ m → m + 1 - i ≤ fuel →
      (retryLoop attempt clock timeout endTime fuel i yields).isSome = true := by
  intro fuel
  induction fuel with
  | zero =>
    intro i yields h1 h2
    omega
  | succ fuel ih =>
    intro i yields h1 h2
    rw [retryLoop_succ]
    cases ha : attempt i with
    | some a => simp
    | none =>
      by_cases hc : 0 < timeout ∧ clock i < endTime
      · rw [if_pos hc]
        have hi : i < m := by
          by_contra hx
          exact hm i (by omega) hc.2
        exact ih (i + 1) (if 0 < timeout then yields + 1 else yields) (by omega) (by omega)
      · rw [if_neg hc]
        simp

theorem length_pqInsertBy (lt : α → α → Bool) (t : α) (l : List α) :
    (pqInsertBy lt t l).length = l.length + 1 := by
  induction l with
  | nil => rfl
  | cons e rest ih =>
    unfold pqInsertBy
    by_cases h : lt e t = true <;> simp [h, ih]

/-! ## Claim theorems -/

/-- Claim C1: the spec requires the producer to set `committed = true`
only after the link CAS succeeds, and a consumer observing a
linked-but-uncommitted node to treat it as unavailable.  The code does
neither: the `Node(value)` constructor already sets `committed = true`
at allocation time, before the link CAS, and `try_receive_impl`
returns the data of the sentinel's successor without ever loading
`committed` — here it returns the value `42` of a linked node whose
`committed` flag is `false`. -/
theorem channel_committed_flag_ignored :
    (ChanNode.mkValue (7 : Nat)).committed = true ∧
    (MPMCChannelM.try_receive_impl ⟨1, 1, [⟨42, false⟩]⟩).1 = some 42 ∧
    ((MPMCChannelM.try_send_impl ⟨1, 0, []⟩ (5 : Nat)).2.chain.map ChanNode.committed = [true]) := by
  refine ⟨rfl, rfl, ?_⟩
  decide

/-- Claim C3: with `size ≥ capacity`, `try_enqueue` returns `false` and
leaves the whole queue state unchanged; and from `size = capacity - 1`
(single-threaded) one enqueue succeeds and the immediately following
enqueue fails, again without side effects. -/
theorem try_enqueue_full_no_side_effects (T : Type) (q : MPMCQueueM T) (v w : T)
    (hfull : q.capacity ≤ q.size) (q1 : MPMCQueueM T) (hq1 : q1.size + 1 = q1.capacity) :
    MPMCQueueM.try_enqueue q v = (false, q) ∧
    (MPMCQueueM.try_enqueue q1 v).1 = true ∧
    (MPMCQueueM.try_enqueue (MPMCQueueM.try_enqueue q1 v).2 w).1 = false ∧
    (MPMCQueueM.try_enqueue (MPMCQueueM.try_enqueue q1 v).2 w).2 =
      (MPMCQueueM.try_enqueue q1 v).2 := by
  have h1 : ¬ q1.capacity ≤ q1.size := by omega
  have e1 : MPMCQueueM.try_enqueue q1 v =
      (true, { q1 with chain := q1.chain ++ [v], size := q1.size + 1 }) := by
    simp [MPMCQueueM.try_enqueue, h1]
  have h2 : q1.capacity ≤ q1.size + 1 := by omega
  refine ⟨by simp [MPMCQueueM.try_enqueue, hfull], ?_, ?_, ?_⟩ <;>
    rw [e1] <;> simp [MPMCQueueM.try_enqueue, h2]

/-- Witness for C3 at a concrete queue: capacity 2 full queue, and a
capacity-3 queue holding two elements. -/
theorem try_enqueue_full_no_side_effects_witness :
    MPMCQueueM.try_enqueue (⟨2, 2, [10, 11]⟩ : MPMCQueueM Nat) 12 = (false, ⟨2, 2, [10, 11]⟩) ∧
    (MPMCQueueM.try_enqueue (⟨3, 2, [10, 11]⟩ : MPMCQueueM Nat) 12).1 = true ∧
    (MPMCQueueM.try_enqueue (MPMCQueueM.try_enqueue (⟨3, 2, [10, 11]⟩ : MPMCQueueM Nat) 12).2 13).1 = false ∧
    (MPMCQueueM.try_enqueue (MPMCQueueM.try_enqueue (⟨3, 2, [10, 11]⟩ : MPMCQueueM Nat) 12).2 13).2 =
      (MPMCQueueM.try_enqueue (⟨3, 2, [10, 11]⟩ : MPMCQueueM Nat) 12).2 := by
  have h := try_enqueue_full_no_side_effects Nat ⟨2, 2, [10, 11]⟩ 12 13 (by decide)
      ⟨3, 2, [10, 11]⟩ (by decide)
  exact ⟨h.1, (try_enqueue_full_no_side_effects Nat ⟨2, 2, [10, 11]⟩ 12 13 (by decide)
      ⟨3, 2, [10, 11]⟩ (by decide)).2.1, h.2.2.1, h.2.2.2⟩

/-- Counterexample to claim C4 as stated: on the capacity-2 queue already
holding the value 1 (size 1 < capacity), enqueueing 2 and then dequeueing
yields the older value 1, not the just-enqueued 2. -/
theorem enqueue_dequeue_not_always_same_value :
    ((⟨2, 1, [1]⟩ : MPMCQueueM Nat).size < (⟨2, 1, [1]⟩ : MPMCQueueM Nat).capacity) ∧
    (MPMCQueueM.try_enqueue (⟨2, 1, [1]⟩ : MPMCQueueM Nat) 2).1 = true ∧
    (MPMCQueueM.try_dequeue (MPMCQueueM.try_enqueue (⟨2, 1, [1]⟩ : MPMCQueueM Nat) 2).2).1 = some 1 ∧
    (1 : Nat) ≠ 2 := by
  decide

/-- Claim C4, amended: with no concurrent actors and `size < capacity`,
`try_enqueue v` succeeds, the following `try_dequeue` succeeds and
yields the oldest element of the queue — which is exactly `v` when the
queue was empty — and the queue's size is restored to its prior value. -/
theorem enqueue_dequeue_roundtrip (T : Type) (q : MPMCQueueM T) (v : T)
    (hwf : q.size = q.chain.length) (hroom : q.size < q.capacity) :
    (MPMCQueueM.try_enqueue q v).1 = true ∧
    (MPMCQueueM.try_dequeue (MPMCQueueM.try_enqueue q v).2).1 = some (q.chain.headD v) ∧
    (q.chain = [] → (MPMCQueueM.try_dequeue (MPMCQueueM.try_enqueue q v).2).1 = some v) ∧
    (MPMCQueueM.try_dequeue (MPMCQueueM.try_enqueue q v).2).2.size = q.size := by
  have h1 : ¬ q.capacity ≤ q.size := by omega
  have e1 : MPMCQueueM.try_enqueue q v =
      (true, { q with chain := q.chain ++ [v], size := q.size + 1 }) := by
    simp [MPMCQueueM.try_enqueue, h1]
  have e2 : MPMCQueueM.try_dequeue ({ q with chain := q.chain ++ [v], size := q.size + 1 } :
      MPMCQueueM T) =
      (some (q.chain.headD v),
        { q with chain := (q.chain ++ [v]).tail, size := q.size }) := by
    cases hc : q.chain with
    | nil => simp [MPMCQueueM.try_dequeue]
    | cons a rest => simp [MPMCQueueM.try_dequeue]
  refine ⟨by rw [e1], by rw [e1, e2], ?_, by rw [e1, e2]⟩
  intro hc
  rw [e1, e2, hc]
  rfl

/-- Witness for the amended C4 on the empty capacity-4 queue with value 9. -/
theorem enqueue_dequeue_roundtrip_witness :
    (MPMCQueueM.try_enqueue (⟨4, 0, []⟩ : MPMCQueueM Nat) 9).1 = true ∧
    (MPMCQueueM.try_dequeue (MPMCQueueM.try_enqueue (⟨4, 0, []⟩ : MPMCQueueM Nat) 9).2).1 = some 9 ∧
    (MPMCQueueM.try_dequeue (MPMCQueueM.try_enqueue (⟨4, 0, []⟩ : MPMCQueueM Nat) 9).2).2.size = 0 := by
  have h := enqueue_dequeue_roundtrip Nat ⟨4, 0, []⟩ 9 (by decide) (by decide)
  exact ⟨h.1, h.2.2.1 rfl, h.2.2.2⟩

/-- Counterexample to claim C2 as stated: with the stop flag already
set and one due task (priority 0, schedule_time 0, id 0) still in the
heap, the worker's next iteration pops the task and invokes its
callable instead of discarding it — `worker_loop` returns only when
`stop_ && tasks_.empty()`. -/
theorem pending_task_executed_after_stop :
    (SchedState.workerStep ⟨[⟨0, 0, 0⟩], true, 1, []⟩ 0).1 = WorkerAct.run 0 ∧
    (SchedState.workerStep ⟨[⟨0, 0, 0⟩], true, 1, []⟩ 0).2.runLog = [⟨0, 0, 0⟩] := by
  decide

/-- Claim C2, amended: the destructor sets the stop flag (under the
lock), broadcasts the condition variable and joins the workers, but
tasks still pending when the stop flag is set are not discarded: a
worker exits exactly when the stop flag is set and the heap is empty,
and while the heap is nonempty a due top task is still popped and its
callable executed. -/
theorem shutdown_drains_heap (s : SchedState) (now : Nat) :
    ((s.workerStep now).1 = WorkerAct.exit ↔ (s.stop = true ∧ s.tasks = [])) ∧
    (SchedState.set_stop s).stop = true ∧
    (∀ t rest, s.tasks = t :: rest → t.schedule_time ≤ now →
      (s.workerStep now).1 = WorkerAct.run t.task_id ∧
      (s.workerStep now).2.runLog = s.runLog ++ [t]) := by
  refine ⟨?_, rfl, ?_⟩
  · unfold SchedState.workerStep
    cases hc : s.tasks with
    | nil =>
      cases hs : s.stop <;> simp
    | cons t rest =>
      by_cases hn : t.schedule_time ≤ now <;> simp [hn]
  · intro t rest hts hnow
    unfold SchedState.workerStep
    rw [hts]
    simp [hnow]

/-- Witness for the amended C2: an empty stopped scheduler exits; a
stopped scheduler with a due pending task runs it. -/
theorem shutdown_drains_heap_witness :
    ((SchedState.workerStep ⟨[], true, 0, []⟩ 5).1 = WorkerAct.exit ↔
      (true = true ∧ ([] : List SchedTask) = [])) ∧
    (SchedState.workerStep ⟨[⟨2, 3, 7⟩], true, 0, []⟩ 5).1 = WorkerAct.run 7 ∧
    (SchedState.workerStep ⟨[⟨2, 3, 7⟩], true, 0, []⟩ 5).2.runLog = [⟨2, 3, 7⟩] := by
  have h1 := shutdown_drains_heap ⟨[], true, 0, []⟩ 5
  have h2 := shutdown_drains_heap ⟨[⟨2, 3, 7⟩], true, 0, []⟩ 5
  exact ⟨h1.1, (h2.2.2 ⟨2, 3, 7⟩ [] rfl (by decide)).1, (h2.2.2 ⟨2, 3, 7⟩ [] rfl (by decide)).2⟩

/-- Claim C5: in the heap's pop order, an earlier task has strictly
larger priority or equal priority and no later schedule_time; a worker
pops exactly the top task once due; and the literal scenario — on a
1-worker scheduler, three tasks submitted at time 0 with priorities
1, 5, 3 execute in priority order, so logging each task's priority as
it runs yields [5, 3, 1]. -/
theorem priority_then_time_order (s : SchedState)
    (hs : s.tasks.Pairwise (fun a b => SchedTask.lt a b = false)) :
    (∀ (i j : Fin s.tasks.length), i < j →
      ((s.tasks.get j).priority < (s.tasks.get i).priority ∨
        ((s.tasks.get i).priority = (s.tasks.get j).priority ∧
         (s.tasks.get i).schedule_time ≤ (s.tasks.get j).schedule_time))) ∧
    (∀ now t rest, s.tasks = t :: rest → t.schedule_time ≤ now →
      s.workerStep now = (WorkerAct.run t.task_id,
        { s with tasks := rest, runLog := s.runLog ++ [t] })) ∧
    ((drainFuel 3 0
        ((((((⟨[], false, 0, []⟩ : SchedState).schedule 0 1).2).schedule 0 5).2).schedule 0 3).2).runLog.map
        SchedTask.priority = [5, 3, 1]) := by
  refine ⟨?_, ?_, ?_⟩
  · intro i j hij
    have h := List.pairwise_iff_get.mp hs i j hij
    rw [SchedTask.nlt_iff] at h
    exact h
  · intro now t rest hts hnow
    unfold SchedState.workerStep
    rw [hts]
    simp [hnow]
  · decide

/-- Witness for C5 on the empty scheduler state (its heap is trivially
pop-ordered); the scenario conjunct is the closed instance. -/
theorem priority_then_time_order_witness :
    (drainFuel 3 0
        ((((((⟨[], false, 0, []⟩ : SchedState).schedule 0 1).2).schedule 0 5).2).schedule 0 3).2).runLog.map
        SchedTask.priority = [5, 3, 1] :=
  (priority_then_time_order ⟨[], false, 0, []⟩ (by simp)).2.2

/-- Claim C6: on a pop-ordered heap, `cancel id` reports whether some
pending task has that id, removes exactly the matching tasks, preserves
the relative pop order of the remaining tasks (the result is the
filtered list, a sublist of the original), and a repeated `cancel` of
the same id is a no-op returning `false`. -/
theorem cancel_spec (s : SchedState) (id : Nat)
    (hs : s.tasks.Pairwise (fun a b => SchedTask.lt a b = false)) :
    (SchedState.cancel s id).1 = s.tasks.any (fun t => t.task_id == id) ∧
    (SchedState.cancel s id).2.tasks = s.tasks.filter (fun t => t.task_id != id) ∧
    List.Sublist (SchedState.cancel s id).2.tasks s.tasks ∧
    (SchedState.cancel (SchedState.cancel s id).2 id).1 = false ∧
    (SchedState.cancel (SchedState.cancel s id).2 id).2 = (SchedState.cancel s id).2 := by
  have hfilt : (s.tasks.filter (fun t => t.task_id != id)).Pairwise
      (fun a b => SchedTask.lt a b = false) := hs.filter _
  have hre : (s.tasks.filter (fun t => t.task_id != id)).foldl
      (fun acc t => pqInsertBy SchedTask.lt t acc) [] =
      s.tasks.filter (fun t => t.task_id != id) := by
    have h := foldl_pqInsert_sorted (s.tasks.filter (fun t => t.task_id != id)) []
      (by simpa using hfilt)
    simpa using h
  have e1 : (SchedState.cancel s id).2.tasks = s.tasks.filter (fun t => t.task_id != id) := by
    simp [SchedState.cancel, hre]
  have hself : (s.tasks.filter (fun t => t.task_id != id)).filter
      (fun t => t.task_id != id) = s.tasks.filter (fun t => t.task_id != id) :=
    List.filter_eq_self.mpr (fun a ha => (List.mem_filter.mp ha).2)
  refine ⟨rfl, e1, ?_, ?_, ?_⟩
  · rw [e1]
    exact List.filter_sublist s.tasks
  · show (SchedState.cancel s id).2.tasks.any (fun t => t.task_id == id) = false
    rw [e1, List.any_eq_false]
    intro x hx
    have := (List.mem_filter.mp hx).2
    simpa using this
  · show ({ (SchedState.cancel s id).2 with
        tasks := ((SchedState.cancel s id).2.tasks.filter (fun t => t.task_id != id)).foldl
          (fun acc t => pqInsertBy SchedTask.lt t acc) [] } : SchedState) =
      (SchedState.cancel s id).2
    rw [e1, hself, hre, ← e1]

/-- Witness for C6: a two-task heap, cancelling id 1 then re-cancelling. -/
theorem cancel_spec_witness :
    (SchedState.cancel ⟨[⟨5, 0, 1⟩, ⟨3, 0, 2⟩], false, 3, []⟩ 1).1 =
      ([⟨5, 0, 1⟩, ⟨3, 0, 2⟩] : List SchedTask).any (fun t => t.task_id == 1) ∧
    (SchedState.cancel ⟨[⟨5, 0, 1⟩, ⟨3, 0, 2⟩], false, 3, []⟩ 1).2.tasks =
      ([⟨5, 0, 1⟩, ⟨3, 0, 2⟩] : List SchedTask).filter (fun t => t.task_id != 1) ∧
    (SchedState.cancel
      (SchedState.cancel ⟨[⟨5, 0, 1⟩, ⟨3, 0, 2⟩], false, 3, []⟩ 1).2 1).1 = false ∧
    (SchedState.cancel
      (SchedState.cancel ⟨[⟨5, 0, 1⟩, ⟨3, 0, 2⟩], false, 3, []⟩ 1).2 1).2 =
      (SchedState.cancel ⟨[⟨5, 0, 1⟩, ⟨3, 0, 2⟩], false, 3, []⟩ 1).2 := by
  have h := cancel_spec ⟨[⟨5, 0, 1⟩, ⟨3, 0, 2⟩], false, 3, []⟩ 1 (by decide)
  exact ⟨h.1, h.2.1, h.2.2.2.1, h.2.2.2.2⟩

/-- Claim C7: each of `submit`, `submit_with_priority` and
`schedule_after` throws the queue-full error exactly when the number of
pending tasks is at least `max_queue_size` (whose constructor default is
10000); a throw leaves the queue untouched, and a non-throwing submit
adds exactly one task. -/
theorem submit_queue_full_iff (s : ExecState) (fid now delay : Nat) (pri : Int) :
    ((ExecState.submit s fid now).1 = true ↔ s.max_queue_size ≤ s.tasks.length) ∧
    ((ExecState.submit_with_priority s pri fid now).1 = true ↔
      s.max_queue_size ≤ s.tasks.length) ∧
    ((ExecState.schedule_after s delay fid now).1 = true ↔
      s.max_queue_size ≤ s.tasks.length) ∧
    ((ExecState.submit s fid now).1 = true → (ExecState.submit s fid now).2 = s) ∧
    ((ExecState.submit_with_priority s pri fid now).1 = true →
      (ExecState.submit_with_priority s pri fid now).2 = s) ∧
    ((ExecState.schedule_after s delay fid now).1 = true →
      (ExecState.schedule_after s delay fid now).2 = s) ∧
    ((ExecState.submit s fid now).1 = false →
      (ExecState.submit s fid now).2.tasks.length = s.tasks.length + 1) ∧
    default_max_queue_size = 10000 := by
  by_cases h : s.max_queue_size ≤ s.tasks.length <;>
    simp [ExecState.submit, ExecState.submit_with_priority, ExecState.schedule_after,
      ExecState.submitCore, h, default_max_queue_size, length_pqInsertBy]

/-- Witness for C7: a zero-capacity executor rejects a submission and
keeps its (empty) queue; a capacity-2 executor accepts one. -/
theorem submit_queue_full_iff_witness :
    ((ExecState.submit ⟨[], 0⟩ 4 0).1 = true ↔ (0 : Nat) ≤ ([] : List ExecTask).length) ∧
    ((ExecState.submit ⟨[], 0⟩ 4 0).1 = true → (ExecState.submit ⟨[], 0⟩ 4 0).2 = ⟨[], 0⟩) ∧
    ((ExecState.submit ⟨[], 2⟩ 4 0).1 = false →
      (ExecState.submit ⟨[], 2⟩ 4 0).2.tasks.length = ([] : List ExecTask).length + 1) ∧
    default_max_queue_size = 10000 := by
  have h1 := submit_queue_full_iff ⟨[], 0⟩ 4 0 0 0
  have h2 := submit_queue_full_iff ⟨[], 2⟩ 4 0 0 0
  exact ⟨h1.1, h1.2.2.2.1, h2.2.2.2.2.2.2.1, h1.2.2.2.2.2.2.2⟩

/-- Claim C8: for `try_send` and `try_receive` with a non-negative
timeout: a zero timeout performs exactly one `_impl` attempt and
returns immediately without yielding; failing runs with a positive
timeout retry only while the observed clock is below the deadline
`now + timeout`, stop at the first check at or past it, and yield once
per failed attempt; successful runs likewise retried only before the
deadline; and as soon as the (monotone) clock reaches the deadline the
operation terminates with a success or a clean failure — it never
blocks indefinitely. -/
theorem channel_timeout_contract (α : Type) (implS : Nat → Bool) (implR : Nat → Option α)
    (clock : Nat → Nat) (now : Nat) (hmono : ∀ j k, j ≤ k → clock j ≤ clock k) :
    (∀ fuel, try_send implS clock now 0 (fuel + 1) =
        some ((if implS 0 then some () else none), 1, 0)) ∧
    (∀ fuel, try_receive implR clock now 0 (fuel + 1) = some (implR 0, 1, 0)) ∧
    (∀ timeout fuel n y, try_send implS clock now timeout fuel = some (none, n, y) →
        (∀ j, j + 1 < n → clock j < now + timeout) ∧
        (0 < timeout → ¬ clock (n - 1) < now + timeout) ∧
        (0 < timeout → y = n)) ∧
    (∀ timeout fuel n y, try_receive implR clock now timeout fuel = some (none, n, y) →
        (∀ j, j + 1 < n → clock j < now + timeout) ∧
        (0 < timeout → ¬ clock (n - 1) < now + timeout) ∧
        (0 < timeout → y = n)) ∧
    (∀ timeout fuel u n y, try_send implS clock now timeout fuel = some (some u, n, y) →
        ∀ j, j + 1 < n → clock j < now + timeout) ∧
    (∀ timeout fuel a n y, try_receive implR clock now timeout fuel = some (some a, n, y) →
        ∀ j, j + 1 < n → clock j < now + timeout) ∧
    (∀ timeout m, now + timeout ≤ clock m →
        (try_send implS clock now timeout (m + 1)).isSome = true ∧
        (try_receive implR clock now timeout (m + 1)).isSome = true) := by
  refine ⟨?_, ?_, ?_, ?_, ?_, ?_, ?_⟩
  · intro fuel
    exact retryLoop_zero_timeout (fun i => if implS i then some () else none) clock
      (now + 0) fuel 0 0
  · intro fuel
    exact retryLoop_zero_timeout implR clock (now + 0) fuel 0 0
  · intro timeout fuel n y h
    obtain ⟨h1, h2, h3, h4⟩ := retryLoop_fail_bounds
      (fun i => if implS i then some () else none) clock timeout (now + timeout) fuel 0 0 n y h
    exact ⟨fun j hj => h2 j (Nat.zero_le j) hj, h3, fun ht => by have := h4 ht; omega⟩
  · intro timeout fuel n y h
    obtain ⟨h1, h2, h3, h4⟩ := retryLoop_fail_bounds implR clock timeout (now + timeout)
      fuel 0 0 n y h
    exact ⟨fun j hj => h2 j (Nat.zero_le j) hj, h3, fun ht => by have := h4 ht; omega⟩
  · intro timeout fuel u n y h
    obtain ⟨h1, h2⟩ := retryLoop_success_bounds
      (fun i => if implS i then some () else none) clock timeout (now + timeout) fuel 0 0 u n y h
    exact fun j hj => h2 j (Nat.zero_le j) hj
  · intro timeout fuel a n y h
    obtain ⟨h1, h2⟩ := retryLoop_success_bounds implR clock timeout (now + timeout)
      fuel 0 0 a n y h
    exact fun j hj => h2 j (Nat.zero_le j) hj
  · intro timeout m hdl
    have hm : ∀ k, m ≤ k → ¬ clock k < now + timeout := by
      intro k hk
      have := hmono m k hk
      omega
    constructor
    · exact retryLoop_terminates (fun i => if implS i then some () else none) clock timeout
        (now + timeout) m hm (m + 1) 0 0 (Nat.zero_le m) (by omega)
    · exact retryLoop_terminates implR clock timeout (now + timeout) m hm (m + 1) 0 0
        (Nat.zero_le m) (by omega)

/-- Witness for C8 with the identity clock and always-failing attempts:
the zero-timeout send and receive return after exactly one attempt, and
a timeout-5 send terminates by fuel m + 1 = 6. -/
theorem channel_timeout_contract_witness :
    try_send (fun _ => false) (fun i => i) 0 0 1 = some (none, 1, 0) ∧
    try_receive (fun _ => (none : Option Nat)) (fun i => i) 0 0 1 = some (none, 1, 0) ∧
    (try_send (fun _ => false) (fun i => i) 0 5 6).isSome = true := by
  have h := channel_timeout_contract Nat (fun _ => false) (fun _ => none) (fun i => i) 0
    (fun j k hjk => hjk)
  exact ⟨h.1 0, h.2.1 0, (h.2.2.2.2.2.2 5 5 (by decide)).1⟩

/-- Claim C9: the work-stealing deque after any operation sequence is a
list in push order, and on it `push` appends at the tail, the owner's
`try_pop` removes and returns the most recently pushed remaining element
(the tail), `try_steal` removes and returns the oldest remaining element
(the head), and both fail exactly on the empty deque, leaving it
unchanged. -/
theorem wsq_deque_contract (T : Type) (l : List T) (t : T) :
    WSQ.push l t = l ++ [t] ∧
    WSQ.try_pop (WSQ.push l t) = (some t, l) ∧
    WSQ.try_steal (t :: l) = (some t, l) ∧
    (WSQ.try_pop l).1 = l.getLast? ∧
    (WSQ.try_steal l).1 = l.head? ∧
    ((WSQ.try_pop l).1 = none ↔ l = []) ∧
    ((WSQ.try_steal l).1 = none ↔ l = []) ∧
    WSQ.try_pop ([] : List T) = (none, []) ∧
    WSQ.try_steal ([] : List T) = (none, []) := by
  refine ⟨rfl, ?_, rfl, ?_, ?_, ?_, ?_, rfl, rfl⟩
  · unfold WSQ.try_pop WSQ.push
    rw [List.getLast?_concat]
    simp
  · unfold WSQ.try_pop
    cases h : l.getLast? <;> simp
  · unfold WSQ.try_steal
    cases l <;> simp
  · unfold WSQ.try_pop
    cases h : l.getLast? with
    | none => simpa [List.getLast?_eq_none_iff] using h
    | some a =>
      simp only [h]
      constructor
      · intro hx
        exact absurd hx (by simp)
      · intro hl
        rw [hl] at h
        exact absurd h (by simp)
  · unfold WSQ.try_steal
    cases l <;> simp

/-- Claim C10: `deallocate(nullptr)` returns immediately: no destructor
call is logged and the free list, the chunk list and `allocated_size`
are all unchanged. -/
theorem deallocate_null_noop (p : MemoryPoolM) :
    MemoryPoolM.deallocate p none = p ∧
    (MemoryPoolM.deallocate p none).free_list = p.free_list ∧
    (MemoryPoolM.deallocate p none).chunks = p.chunks ∧
    (MemoryPoolM.deallocate p none).destroyed = p.destroyed ∧
    MemoryPoolM.allocated_size (MemoryPoolM.deallocate p none) =
      MemoryPoolM.allocated_size p :=
  ⟨rfl, rfl, rfl, rfl, rfl⟩

end AsyncToolkit
